import Mathlib

/-!
Shallow embedding of the `PredictionMarkets` contract (src/unnamed/part_001).

Addresses and amounts are modelled as `Nat` (Solidity `uint256` never
overflows in the relevant operations here: Solidity 0.8 reverts on
overflow, and the spec-level claims quantify over the mathematical
behaviour of the pool/stake arithmetic).  Solidity mappings are total
functions with zero defaults.  Reverts are modelled with `Except`:
an error result corresponds to a reverted transaction, which leaves
all storage unchanged (captured by `runOp`).
-/

namespace PredMkt

/-- The custom errors declared by the contract. -/
inductive Err where
  | MarketDoesNotExist
  | MarketEnded
  | MarketNotEnded
  | MarketAlreadyResolved
  | MarketNotResolved
  | DeadlineMustBeFuture
  | BetTooSmall
  | BetTooLarge
  | InvalidOutcome
  | NoWinnings
  | AlreadyClaimed
  | Unauthorized
  | FeeTooHigh
  deriving Repr, DecidableEq

/-- The `Market` struct: question, deadline, resolved, outcomeYes, yesPool, noPool. -/
structure Market where
  question : String
  deadline : Nat
  resolved : Bool
  outcomeYes : Bool
  yesPool : Nat
  noPool : Nat
  deriving Repr, DecidableEq

/-- A Solidity mapping slot that was never written: all fields zero. -/
def Market.init : Market :=
  { question := "", deadline := 0, resolved := false, outcomeYes := false
    yesPool := 0, noPool := 0 }

/-- Contract storage.  `owner` comes from `Ownable`; the mappings
`markets`, `yesStakes`, `noStakes`, `claimed` are total with zero
defaults, exactly like Solidity mappings. -/
structure EngineState where
  owner : Nat
  marketCount : Nat
  minBetSize : Nat
  maxBetSize : Nat
  platformFeeBps : Nat
  accumulatedFees : Nat
  markets : Nat → Market
  yesStakes : Nat → Nat → Nat
  noStakes : Nat → Nat → Nat
  claimed : Nat → Nat → Bool

/-- `BPS_DENOMINATOR` constant (10000). -/
def BPS_DENOMINATOR : Nat := 10000

/-- `MAX_FEE_BPS` constant (1000 = 10%). -/
def MAX_FEE_BPS : Nat := 1000

/-- The constructor: sets owner, bet limits, `platformFeeBps = 200`,
everything else zero / empty. -/
def initState (owner minBetSize maxBetSize : Nat) : EngineState :=
  { owner := owner, marketCount := 0, minBetSize := minBetSize
    maxBetSize := maxBetSize, platformFeeBps := 200, accumulatedFees := 0
    markets := fun _ => Market.init
    yesStakes := fun _ _ => 0
    noStakes := fun _ _ => 0
    claimed := fun _ _ => false }

/-- Point update of a two-argument mapping. -/
def upd2 {α : Type} (f : Nat → Nat → α) (m u : Nat) (v : α) : Nat → Nat → α :=
  fun m2 u2 => if m2 = m ∧ u2 = u then v else f m2 u2

/-- `createMarket(question, deadline)`: reverts `DeadlineMustBeFuture`
when `deadline <= block.timestamp`; otherwise increments `marketCount`
and stores a fresh market at the new id.  Returns the new id. -/
def createMarket (s : EngineState) (now : Nat) (question : String)
    (deadline : Nat) : Except Err (EngineState × Nat) :=
  if deadline ≤ now then .error .DeadlineMustBeFuture
  else
    let marketId := s.marketCount + 1
    .ok ({ s with
            marketCount := marketId
            markets := Function.update s.markets marketId
              { question := question, deadline := deadline, resolved := false
                outcomeYes := false, yesPool := 0, noPool := 0 } },
         marketId)

/-- `_placeBet(marketId, amount, isYes)`: the shared body of `betYes`
and `betNo`.  Checks existence (`deadline != 0`), not resolved, strictly
before deadline, and the configured bet size window (`maxBetSize = 0`
disables the upper bound); then pulls the tokens and increments the
chosen pool and the caller's per-side stake. -/
def placeBet (s : EngineState) (now caller marketId amount : Nat)
    (isYes : Bool) : Except Err EngineState :=
  let market := s.markets marketId
  if market.deadline = 0 then .error .MarketDoesNotExist
  else if market.resolved then .error .MarketAlreadyResolved
  else if market.deadline ≤ now then .error .MarketEnded
  else if amount < s.minBetSize then .error .BetTooSmall
  else if 0 < s.maxBetSize ∧ s.maxBetSize < amount then .error .BetTooLarge
  else if isYes then
    .ok { s with
            markets := Function.update s.markets marketId
              { market with yesPool := market.yesPool + amount }
            yesStakes := upd2 s.yesStakes marketId caller
              (s.yesStakes marketId caller + amount) }
  else
    .ok { s with
            markets := Function.update s.markets marketId
              { market with noPool := market.noPool + amount }
            noStakes := upd2 s.noStakes marketId caller
              (s.noStakes marketId caller + amount) }

/-- `resolveMarket(marketId, outcomeYes)`: owner-only; requires the
market to exist and be unresolved and `deadline <= block.timestamp`;
sets `resolved` and fixes the outcome. -/
def resolveMarket (s : EngineState) (now caller marketId : Nat)
    (outcomeYes : Bool) : Except Err EngineState :=
  if caller ≠ s.owner then .error .Unauthorized
  else
    let market := s.markets marketId
    if market.deadline = 0 then .error .MarketDoesNotExist
    else if market.resolved then .error .MarketAlreadyResolved
    else if now < market.deadline then .error .MarketNotEnded
    else
      .ok { s with
              markets := Function.update s.markets marketId
                { market with resolved := true, outcomeYes := outcomeYes } }

/-- `calculatePayout(marketId, user)`: 0 if unresolved or the total
pool is 0; otherwise floor-divides the user's winning-side stake times
the total pool by the winning pool (0 when the stake or the winning
pool is 0). -/
def calculatePayout (s : EngineState) (marketId user : Nat) : Nat :=
  let market := s.markets marketId
  if market.resolved = false then 0
  else
    let totalPool := market.yesPool + market.noPool
    if totalPool = 0 then 0
    else if market.outcomeYes then
      let userStake := s.yesStakes marketId user
      if userStake = 0 ∨ market.yesPool = 0 then 0
      else userStake * totalPool / market.yesPool
    else
      let userStake := s.noStakes marketId user
      if userStake = 0 ∨ market.noPool = 0 then 0
      else userStake * totalPool / market.noPool

/-- `claim(marketId)`: requires an existing, resolved market not yet
claimed by the caller; computes the gross payout, reverts `NoWinnings`
when it is 0; otherwise marks claimed, accumulates the platform fee
`floor(payout * platformFeeBps / 10000)` and transfers the remainder
to the caller (the transferred amount is the returned `Nat`). -/
def claim (s : EngineState) (caller marketId : Nat) :
    Except Err (EngineState × Nat) :=
  let market := s.markets marketId
  if market.deadline = 0 then .error .MarketDoesNotExist
  else if market.resolved = false then .error .MarketNotResolved
  else if s.claimed marketId caller then .error .AlreadyClaimed
  else
    let payout := calculatePayout s marketId caller
    if payout = 0 then .error .NoWinnings
    else
      let fee := payout * s.platformFeeBps / BPS_DENOMINATOR
      let userPayout := payout - fee
      .ok ({ s with
              claimed := upd2 s.claimed marketId caller true
              accumulatedFees := s.accumulatedFees + fee },
           userPayout)

/-- `withdrawFees(to)`: owner-only; reverts `NoWinnings` when the
accumulator is zero, otherwise transfers it all and zeroes it. -/
def withdrawFees (s : EngineState) (caller : Nat) :
    Except Err (EngineState × Nat) :=
  if caller ≠ s.owner then .error .Unauthorized
  else
    let fees := s.accumulatedFees
    if fees = 0 then .error .NoWinnings
    else .ok ({ s with accumulatedFees := 0 }, fees)

/-- `setFee(newFeeBps)`: owner-only; rejects fees above `MAX_FEE_BPS`. -/
def setFee (s : EngineState) (caller newFeeBps : Nat) :
    Except Err EngineState :=
  if caller ≠ s.owner then .error .Unauthorized
  else if MAX_FEE_BPS < newFeeBps then .error .FeeTooHigh
  else .ok { s with platformFeeBps := newFeeBps }

/-- `setBetLimits(min, max)`: owner-only, no further validation. -/
def setBetLimits (s : EngineState) (caller newMin newMax : Nat) :
    Except Err EngineState :=
  if caller ≠ s.owner then .error .Unauthorized
  else .ok { s with minBetSize := newMin, maxBetSize := newMax }

/-- `getMarket(marketId)`: reads the mapping slot and returns the tuple
(question, deadline, resolved, outcomeYes, yesPool, noPool).  The source
performs no existence check: a never-created id yields the zero slot. -/
def getMarket (s : EngineState) (marketId : Nat) :
    String × Nat × Bool × Bool × Nat × Nat :=
  let m := s.markets marketId
  (m.question, m.deadline, m.resolved, m.outcomeYes, m.yesPool, m.noPool)

/-- A market "exists" when its slot was written: the code tests
`deadline != 0` for this everywhere. -/
def marketExists (s : EngineState) (marketId : Nat) : Bool :=
  decide (¬ (s.markets marketId).deadline = 0)

/-- Modelled from the spec: `getMarket(id)` as section 4.1 words it,
"returns an immutable snapshot or fails NotFound" — an `Except` that
fails on a nonexistent id.  The source `getMarket` has no such check;
this definition exists to compare the two. -/
def getMarketSpec (s : EngineState) (marketId : Nat) :
    Except Err (String × Nat × Bool × Bool × Nat × Nat) :=
  if marketExists s marketId then .ok (getMarket s marketId)
  else .error .MarketDoesNotExist

/-- One engine transaction, with its caller and (where the source reads
`block.timestamp`) the time of the call. -/
inductive Op where
  | createMarket (now : Nat) (question : String) (deadline : Nat)
  | betYes (now caller marketId amount : Nat)
  | betNo (now caller marketId amount : Nat)
  | resolveMarket (now caller marketId : Nat) (outcomeYes : Bool)
  | claim (caller marketId : Nat)
  | withdrawFees (caller : Nat)
  | setFee (caller newFeeBps : Nat)
  | setBetLimits (caller newMin newMax : Nat)

/-- Apply one transaction, dropping return values. -/
def applyOp (s : EngineState) : Op → Except Err EngineState
  | .createMarket now q dl => (createMarket s now q dl).map Prod.fst
  | .betYes now caller id amount => placeBet s now caller id amount true
  | .betNo now caller id amount => placeBet s now caller id amount false
  | .resolveMarket now caller id b => resolveMarket s now caller id b
  | .claim caller id => (claim s caller id).map Prod.fst
  | .withdrawFees caller => (withdrawFees s caller).map Prod.fst
  | .setFee caller bps => setFee s caller bps
  | .setBetLimits caller mn mx => setBetLimits s caller mn mx

/-- EVM revert semantics: a failed transaction leaves storage unchanged. -/
def runOp (s : EngineState) (op : Op) : EngineState × Option Err :=
  match applyOp s op with
  | .ok s2 => (s2, none)
  | .error e => (s, some e)

/-- Execute a list of transactions in order (failed ones change nothing). -/
def execOps (s : EngineState) : List Op → EngineState
  | [] => s
  | op :: rest => execOps (runOp s op).1 rest

/-- The amount market `m` accepts from one transaction: the bet amount
when the transaction is a successful bet on `m`, else 0. -/
def acceptedOf (s : EngineState) (m : Nat) : Op → Nat
  | .betYes now caller id amount =>
      if id = m ∧ (applyOp s (.betYes now caller id amount)).isOk
      then amount else 0
  | .betNo now caller id amount =>
      if id = m ∧ (applyOp s (.betNo now caller id amount)).isOk
      then amount else 0
  | _ => 0

/-- Sum of the amounts accepted by `placeBet` for market `m` along a
trace (a bet counts exactly when its transaction succeeds). -/
def betsAccepted (s : EngineState) (m : Nat) : List Op → Nat
  | [] => 0
  | op :: rest => acceptedOf s m op + betsAccepted (runOp s op).1 m rest

/-- Modelled from the spec, section 4.3: the payout formula written as the
spec words it (winning pool selected by the fixed outcome, single
stake/winningPool zero test). -/
def calculatePayoutSpec (s : EngineState) (marketId user : Nat) : Nat :=
  let market := s.markets marketId
  if market.resolved = false then 0
  else
    let total := market.yesPool + market.noPool
    let winningPool := if market.outcomeYes then market.yesPool else market.noPool
    let stake := if market.outcomeYes then s.yesStakes marketId user
                 else s.noStakes marketId user
    if stake = 0 ∨ winningPool = 0 then 0
    else stake * total / winningPool

/-- Invariant of every reachable storage state: ids beyond the counter
are untouched zero slots, and a slot with `deadline = 0` was never
written at all. -/
structure Inv (s : EngineState) : Prop where
  fresh : ∀ id, s.marketCount < id → s.markets id = Market.init
  dead : ∀ id, (s.markets id).deadline = 0 → s.markets id = Market.init

/-- Frame facts preserved by every transaction (on invariant states):
owner fixed, counter monotone, existing markets keep their deadline,
resolved markets are frozen entirely, pools never shrink, claim flags
never reset. -/
structure Preserves (s s2 : EngineState) : Prop where
  owner : s2.owner = s.owner
  count : s.marketCount ≤ s2.marketCount
  frozen : ∀ id, (s.markets id).deadline ≠ 0 →
      (s2.markets id).deadline = (s.markets id).deadline ∧
      ((s.markets id).resolved = true → s2.markets id = s.markets id)
  pools : ∀ id, (s.markets id).yesPool ≤ (s2.markets id).yesPool ∧
      (s.markets id).noPool ≤ (s2.markets id).noPool
  claimedMono : ∀ id u, s.claimed id u = true → s2.claimed id u = true

/-! ### Concrete example states (used by the closed example theorems) -/

/-- A trace that opens market 1 (deadline 10) and fills it: user 42 bets
100 YES, user 43 bets 600 YES and 300 NO.  Owner is address 7,
minBetSize 1, maxBetSize 1000. -/
def exLockedTrace : List Op :=
  [Op.createMarket 0 "q" 10, Op.betYes 1 42 1 100, Op.betYes 1 43 1 600,
   Op.betNo 2 43 1 300]

/-- The state after `exLockedTrace`: market 1 has yesPool 700,
noPool 300, unresolved, deadline 10. -/
def exLocked : EngineState := execOps (initState 7 1 1000) exLockedTrace

/-- `exLocked` after the owner resolves market 1 to YES at time 10. -/
def exResolved : EngineState :=
  execOps (initState 7 1 1000) (exLockedTrace ++ [Op.resolveMarket 10 7 1 true])

/-- The result of user 42's claim on `exResolved` (defined totally; the
claim does succeed there). -/
def exPostClaim : EngineState × Nat :=
  (claim exResolved 42 1).toOption.getD (exResolved, 0)

/-- The state after the owner resolves market 1 of `exLocked` to YES. -/
def exPostResolve : EngineState :=
  ((resolveMarket exLocked 10 7 1 true).toOption).getD exLocked

/-- A market everyone bet NO on, resolved YES: the winning pool is zero
while 100 tokens sit in the no pool. -/
def exStranded : EngineState :=
  execOps (initState 7 1 1000)
    [Op.createMarket 0 "q" 10, Op.betNo 1 42 1 100, Op.resolveMarket 10 7 1 true]

/-- An open market (deadline 100, unresolved, empty pools). -/
def exOpen : EngineState :=
  execOps (initState 7 1 1000) [Op.createMarket 0 "q" 100]

/-- The result of user 42 betting 50 YES on `exOpen` at time 5. -/
def exPostBet : EngineState :=
  ((placeBet exOpen 5 42 1 50 true).toOption).getD exOpen

/-! ### Inversion lemmas: what a successful operation requires and produces -/

theorem createMarket_ok {s : EngineState} {now : Nat} {q : String}
    {dl : Nat} {r : EngineState × Nat}
    (h : createMarket s now q dl = .ok r) :
    now < dl ∧ r.2 = s.marketCount + 1 ∧
    r.1 = { s with
              marketCount := s.marketCount + 1
              markets := Function.update s.markets (s.marketCount + 1)
                { question := q, deadline := dl, resolved := false
                  outcomeYes := false, yesPool := 0, noPool := 0 } } := by
  unfold createMarket at h
  dsimp only at h
  split at h
  · exact absurd h (by simp)
  · cases h
    exact ⟨by omega, rfl, rfl⟩

theorem placeBet_ok {s : EngineState} {now caller id amount : Nat}
    {isYes : Bool} {s2 : EngineState}
    (h : placeBet s now caller id amount isYes = .ok s2) :
    (s.markets id).deadline ≠ 0 ∧ (s.markets id).resolved = false ∧
    now < (s.markets id).deadline ∧ s.minBetSize ≤ amount ∧
    (s.maxBetSize = 0 ∨ amount ≤ s.maxBetSize) ∧
    s2 = (if isYes then
            { s with
                markets := Function.update s.markets id
                  { s.markets id with yesPool := (s.markets id).yesPool + amount }
                yesStakes := upd2 s.yesStakes id caller
                  (s.yesStakes id caller + amount) }
          else
            { s with
                markets := Function.update s.markets id
                  { s.markets id with noPool := (s.markets id).noPool + amount }
                noStakes := upd2 s.noStakes id caller
                  (s.noStakes id caller + amount) }) := by
  unfold placeBet at h
  dsimp only at h
  split at h
  · exact absurd h (by simp)
  · split at h
    · exact absurd h (by simp)
    · split at h
      · exact absurd h (by simp)
      · split at h
        · exact absurd h (by simp)
        · split at h
          · exact absurd h (by simp)
          · split at h <;> rename_i hmax hyes
            · cases h
              refine ⟨by omega, by simp_all, by omega, by omega, by omega, ?_⟩
              simp [hyes]
            · cases h
              refine ⟨by omega, by simp_all, by omega, by omega, by omega, ?_⟩
              simp [hyes]

theorem resolveMarket_ok {s : EngineState} {now caller id : Nat}
    {b : Bool} {s2 : EngineState}
    (h : resolveMarket s now caller id b = .ok s2) :
    caller = s.owner ∧ (s.markets id).deadline ≠ 0 ∧
    (s.markets id).resolved = false ∧ (s.markets id).deadline ≤ now ∧
    s2 = { s with
             markets := Function.update s.markets id
               { s.markets id with resolved := true, outcomeYes := b } } := by
  unfold resolveMarket at h
  dsimp only at h
  split at h
  · exact absurd h (by simp)
  · split at h
    · exact absurd h (by simp)
    · split at h
      · exact absurd h (by simp)
      · split at h
        · exact absurd h (by simp)
        · cases h
          refine ⟨by tauto, by omega, by simp_all, by omega, rfl⟩

theorem claim_ok {s : EngineState} {caller id : Nat}
    {r : EngineState × Nat}
    (h : claim s caller id = .ok r) :
    (s.markets id).deadline ≠ 0 ∧ (s.markets id).resolved = true ∧
    s.claimed id caller = false ∧ calculatePayout s id caller ≠ 0 ∧
    r.2 = calculatePayout s id caller -
      calculatePayout s id caller * s.platformFeeBps / BPS_DENOMINATOR ∧
    r.1 = { s with
              claimed := upd2 s.claimed id caller true
              accumulatedFees := s.accumulatedFees +
                calculatePayout s id caller * s.platformFeeBps / BPS_DENOMINATOR } := by
  unfold claim at h
  dsimp only at h
  split at h
  · exact absurd h (by simp)
  · split at h
    · exact absurd h (by simp)
    · split at h
      · exact absurd h (by simp)
      · split at h
        · exact absurd h (by simp)
        · cases h
          refine ⟨by omega, by simp_all, by simp_all, by omega, rfl, rfl⟩

theorem withdrawFees_ok {s : EngineState} {caller : Nat}
    {r : EngineState × Nat}
    (h : withdrawFees s caller = .ok r) :
    caller = s.owner ∧ s.accumulatedFees ≠ 0 ∧ r.2 = s.accumulatedFees ∧
    r.1 = { s with accumulatedFees := 0 } := by
  unfold withdrawFees at h
  dsimp only at h
  split at h
  · exact absurd h (by simp)
  · split at h
    · exact absurd h (by simp)
    · cases h
      exact ⟨by tauto, by omega, rfl, rfl⟩

theorem setFee_ok {s : EngineState} {caller bps : Nat} {s2 : EngineState}
    (h : setFee s caller bps = .ok s2) :
    caller = s.owner ∧ bps ≤ MAX_FEE_BPS ∧
    s2 = { s with platformFeeBps := bps } := by
  unfold setFee at h
  split at h
  · exact absurd h (by simp)
  · split at h
    · exact absurd h (by simp)
    · cases h
      exact ⟨by tauto, by omega, rfl⟩

theorem setBetLimits_ok {s : EngineState} {caller mn mx : Nat}
    {s2 : EngineState}
    (h : setBetLimits s caller mn mx = .ok s2) :
    caller = s.owner ∧ s2 = { s with minBetSize := mn, maxBetSize := mx } := by
  unfold setBetLimits at h
  split at h
  · exact absurd h (by simp)
  · cases h
    exact ⟨by tauto, rfl⟩

/-! ### Targeted error lemmas -/

theorem claim_already_err {s : EngineState} {caller id : Nat}
    (h1 : (s.markets id).deadline ≠ 0) (h2 : (s.markets id).resolved = true)
    (h3 : s.claimed id caller = true) :
    claim s caller id = .error .AlreadyClaimed := by
  unfold claim
  dsimp only
  rw [if_neg h1, if_neg (by simp [h2]), if_pos h3]

theorem claim_noWinnings_err {s : EngineState} {caller id : Nat}
    (h1 : (s.markets id).deadline ≠ 0) (h2 : (s.markets id).resolved = true)
    (h3 : s.claimed id caller = false)
    (h4 : calculatePayout s id caller = 0) :
    claim s caller id = .error .NoWinnings := by
  unfold claim
  dsimp only
  rw [if_neg h1, if_neg (by simp [h2]), if_neg (by simp [h3]), if_pos h4]

theorem placeBet_ended_err {s : EngineState} {now caller id amount : Nat}
    {isYes : Bool}
    (h1 : (s.markets id).deadline ≠ 0) (h2 : (s.markets id).resolved = false)
    (h3 : (s.markets id).deadline ≤ now) :
    placeBet s now caller id amount isYes = .error .MarketEnded := by
  unfold placeBet
  dsimp only
  rw [if_neg h1, if_neg (by simp [h2]), if_pos h3]

theorem resolveMarket_notEnded_err {s : EngineState} {now caller id : Nat}
    {b : Bool} (h0 : caller = s.owner)
    (h1 : (s.markets id).deadline ≠ 0) (h2 : (s.markets id).resolved = false)
    (h3 : now < (s.markets id).deadline) :
    resolveMarket s now caller id b = .error .MarketNotEnded := by
  unfold resolveMarket
  dsimp only
  rw [if_neg (by simp [h0]), if_neg h1, if_neg (by simp [h2]), if_pos h3]

theorem resolveMarket_already_err {s : EngineState} {now caller id : Nat}
    {b : Bool} (h0 : caller = s.owner)
    (h1 : (s.markets id).deadline ≠ 0) (h2 : (s.markets id).resolved = true) :
    resolveMarket s now caller id b = .error .MarketAlreadyResolved := by
  unfold resolveMarket
  dsimp only
  rw [if_neg (by simp [h0]), if_neg h1, if_pos (by simp [h2])]

theorem createMarket_past_err {s : EngineState} {now dl : Nat} {q : String}
    (h : dl ≤ now) :
    createMarket s now q dl = .error .DeadlineMustBeFuture := by
  unfold createMarket
  rw [if_pos h]

/-! ### Reachability invariant and frame preservation -/

theorem preserves_refl (s : EngineState) : Preserves s s :=
  ⟨rfl, le_refl _, fun _ _ => ⟨rfl, fun _ => rfl⟩,
   fun _ => ⟨le_refl _, le_refl _⟩, fun _ _ h => h⟩

theorem preserves_trans {s1 s2 s3 : EngineState}
    (h12 : Preserves s1 s2) (h23 : Preserves s2 s3) : Preserves s1 s3 := by
  refine ⟨h23.owner.trans h12.owner, le_trans h12.count h23.count, ?_, ?_, ?_⟩
  · intro id hdl
    obtain ⟨hd12, hr12⟩ := h12.frozen id hdl
    obtain ⟨hd23, hr23⟩ := h23.frozen id (by rw [hd12]; exact hdl)
    refine ⟨hd23.trans hd12, ?_⟩
    intro hres
    have h2 := hr12 hres
    have h3 := hr23 (by rw [h2]; exact hres)
    rw [h3, h2]
  · intro id
    exact ⟨le_trans (h12.pools id).1 (h23.pools id).1,
           le_trans (h12.pools id).2 (h23.pools id).2⟩
  · intro id u hu
    exact h23.claimedMono id u (h12.claimedMono id u hu)

theorem inv_init (owner mn mx : Nat) : Inv (initState owner mn mx) :=
  ⟨fun _ _ => rfl, fun _ _ => rfl⟩

/-- An existing market's id never exceeds the counter. -/
theorem exists_le_count {s : EngineState} (h : Inv s) {id : Nat}
    (hdl : (s.markets id).deadline ≠ 0) : id ≤ s.marketCount := by
  by_contra hc
  exact hdl (by rw [h.fresh id (by omega)]; rfl)

theorem inv_preserves_update {s s2 : EngineState} {id0 : Nat} {m2 : Market}
    (h : Inv s)
    (hs2m : s2.markets = Function.update s.markets id0 m2)
    (hs2c : s2.marketCount = s.marketCount)
    (hs2o : s2.owner = s.owner)
    (hs2cl : s2.claimed = s.claimed)
    (hdl : (s.markets id0).deadline ≠ 0)
    (hres : (s.markets id0).resolved = false)
    (hdl2 : m2.deadline = (s.markets id0).deadline)
    (hy : (s.markets id0).yesPool ≤ m2.yesPool)
    (hn : (s.markets id0).noPool ≤ m2.noPool) :
    Inv s2 ∧ Preserves s s2 := by
  have hid0 : id0 ≤ s.marketCount := exists_le_count h hdl
  constructor
  · constructor
    · intro id hid
      rw [hs2c] at hid
      rw [hs2m, Function.update_apply, if_neg (by omega)]
      exact h.fresh id hid
    · intro id hd
      rw [hs2m, Function.update_apply] at hd ⊢
      by_cases hc : id = id0
      · rw [if_pos hc] at hd
        rw [hdl2] at hd
        subst hc
        exact absurd hd hdl
      · rw [if_neg hc] at hd ⊢
        exact h.dead id hd
  · refine ⟨hs2o, by omega, ?_, ?_, ?_⟩
    · intro id hdl'
      rw [hs2m, Function.update_apply]
      by_cases hc : id = id0
      · subst hc
        rw [if_pos rfl]
        exact ⟨hdl2, fun hr => absurd hr (by simp [hres])⟩
      · rw [if_neg hc]
        exact ⟨rfl, fun _ => rfl⟩
    · intro id
      rw [hs2m, Function.update_apply]
      by_cases hc : id = id0
      · subst hc
        rw [if_pos rfl]
        exact ⟨hy, hn⟩
      · rw [if_neg hc]
        exact ⟨le_refl _, le_refl _⟩
    · intro id u hu
      rw [hs2cl]
      exact hu

theorem inv_preserves_nomarket {s s2 : EngineState}
    (h : Inv s)
    (hm : s2.markets = s.markets) (hc : s2.marketCount = s.marketCount)
    (ho : s2.owner = s.owner)
    (hcl : ∀ id u, s.claimed id u = true → s2.claimed id u = true) :
    Inv s2 ∧ Preserves s s2 := by
  constructor
  · constructor
    · intro id hid
      rw [hc] at hid
      rw [hm]
      exact h.fresh id hid
    · intro id hd
      rw [hm] at hd ⊢
      exact h.dead id hd
  · exact ⟨ho, by omega, fun id _ => by rw [hm]; exact ⟨rfl, fun _ => rfl⟩,
      fun id => by rw [hm]; exact ⟨le_refl _, le_refl _⟩, hcl⟩

theorem inv_preserves_create {s : EngineState} {q : String} {dl : Nat}
    (h : Inv s) (hdl : dl ≠ 0) {s2 : EngineState}
    (hs2 : s2 = { s with
        marketCount := s.marketCount + 1
        markets := Function.update s.markets (s.marketCount + 1)
          { question := q, deadline := dl, resolved := false
            outcomeYes := false, yesPool := 0, noPool := 0 } }) :
    Inv s2 ∧ Preserves s s2 := by
  subst hs2
  constructor
  · constructor
    · intro id hid
      dsimp only at hid ⊢
      rw [Function.update_apply, if_neg (by omega)]
      exact h.fresh id (by omega)
    · intro id hd
      dsimp only at hd ⊢
      rw [Function.update_apply] at hd ⊢
      by_cases hcase : id = s.marketCount + 1
      · rw [if_pos hcase] at hd
        exact absurd hd hdl
      · rw [if_neg hcase] at hd ⊢
        exact h.dead id hd
  · refine ⟨rfl, by dsimp only; omega, ?_, ?_, fun _ _ hu => hu⟩
    · intro id hdl'
      have hle : id ≤ s.marketCount := exists_le_count h hdl'
      dsimp only
      rw [Function.update_apply, if_neg (by omega)]
      exact ⟨rfl, fun _ => rfl⟩
    · intro id
      dsimp only
      rw [Function.update_apply]
      by_cases hcase : id = s.marketCount + 1
      · rw [if_pos hcase]
        rw [hcase, h.fresh (s.marketCount + 1) (by omega)]
        exact ⟨le_refl _, le_refl _⟩
      · rw [if_neg hcase]
        exact ⟨le_refl _, le_refl _⟩

/-- Every transaction (successful or reverted) preserves the invariant
and the frame facts. -/
theorem step_sound (s : EngineState) (op : Op) (h : Inv s) :
    Inv (runOp s op).1 ∧ Preserves s (runOp s op).1 := by
  cases happ : applyOp s op with
  | error e =>
    simp only [runOp, happ]
    exact ⟨h, preserves_refl s⟩
  | ok s2 =>
    simp only [runOp, happ]
    cases op with
    | createMarket now q dl =>
      simp only [applyOp] at happ
      cases hc : createMarket s now q dl with
      | error e => rw [hc] at happ; cases happ
      | ok r =>
        rw [hc] at happ
        simp only [Except.map] at happ
        cases happ
        obtain ⟨hnow, _, hstate⟩ := createMarket_ok hc
        exact inv_preserves_create h (by omega) hstate
    | betYes now caller id0 amount =>
      simp only [applyOp] at happ
      obtain ⟨hdl, hres, _, _, _, hs2⟩ := placeBet_ok happ
      rw [if_pos rfl] at hs2
      subst hs2
      exact inv_preserves_update h rfl rfl rfl rfl hdl hres rfl
        (Nat.le_add_right _ _) (le_refl _)
    | betNo now caller id0 amount =>
      simp only [applyOp] at happ
      obtain ⟨hdl, hres, _, _, _, hs2⟩ := placeBet_ok happ
      rw [if_neg (by simp)] at hs2
      subst hs2
      exact inv_preserves_update h rfl rfl rfl rfl hdl hres rfl
        (le_refl _) (Nat.le_add_right _ _)
    | resolveMarket now caller id0 b =>
      simp only [applyOp] at happ
      obtain ⟨_, hdl, hres, _, hs2⟩ := resolveMarket_ok happ
      subst hs2
      exact inv_preserves_update h rfl rfl rfl rfl hdl hres rfl
        (le_refl _) (le_refl _)
    | claim caller id0 =>
      simp only [applyOp] at happ
      cases hc : claim s caller id0 with
      | error e => rw [hc] at happ; cases happ
      | ok r =>
        rw [hc] at happ
        simp only [Except.map] at happ
        cases happ
        obtain ⟨_, _, _, _, _, hstate⟩ := claim_ok hc
        refine inv_preserves_nomarket h (by rw [hstate]) (by rw [hstate])
          (by rw [hstate]) ?_
        intro id u hu
        rw [hstate]
        dsimp only [upd2]
        by_cases hcase : id = id0 ∧ u = caller
        · rw [if_pos hcase]
        · rw [if_neg hcase]
          exact hu
    | withdrawFees caller =>
      simp only [applyOp] at happ
      cases hc : withdrawFees s caller with
      | error e => rw [hc] at happ; cases happ
      | ok r =>
        rw [hc] at happ
        simp only [Except.map] at happ
        cases happ
        obtain ⟨_, _, _, hstate⟩ := withdrawFees_ok hc
        exact inv_preserves_nomarket h (by rw [hstate]) (by rw [hstate])
          (by rw [hstate]) (fun id u hu => by rw [hstate]; exact hu)
    | setFee caller bps =>
      simp only [applyOp] at happ
      obtain ⟨_, _, hstate⟩ := setFee_ok happ
      exact inv_preserves_nomarket h (by rw [hstate]) (by rw [hstate])
        (by rw [hstate]) (fun id u hu => by rw [hstate]; exact hu)
    | setBetLimits caller mn mx =>
      simp only [applyOp] at happ
      obtain ⟨_, hstate⟩ := setBetLimits_ok happ
      exact inv_preserves_nomarket h (by rw [hstate]) (by rw [hstate])
        (by rw [hstate]) (fun id u hu => by rw [hstate]; exact hu)

theorem acceptedOf_err {s : EngineState} {op : Op} {e : Err} {m : Nat}
    (happ : applyOp s op = .error e) : acceptedOf s m op = 0 := by
  cases op <;> simp [acceptedOf, happ, Except.isOk, Except.toBool]

/-- One transaction changes a market's pool sum by exactly the amount
it accepts for that market. -/
theorem pools_step (s : EngineState) (op : Op) (m : Nat) (h : Inv s) :
    ((runOp s op).1.markets m).yesPool + ((runOp s op).1.markets m).noPool
      = (s.markets m).yesPool + (s.markets m).noPool + acceptedOf s m op := by
  cases happ : applyOp s op with
  | error e =>
    simp only [runOp, happ]
    rw [acceptedOf_err happ]
    omega
  | ok s2 =>
    simp only [runOp, happ]
    cases op with
    | createMarket now q dl =>
      simp only [applyOp] at happ
      cases hc : createMarket s now q dl with
      | error e => rw [hc] at happ; cases happ
      | ok r =>
        rw [hc] at happ
        simp only [Except.map] at happ
        cases happ
        obtain ⟨hnow, _, hstate⟩ := createMarket_ok hc
        rw [hstate]
        dsimp only
        rw [Function.update_apply]
        by_cases hcase : m = s.marketCount + 1
        · rw [if_pos hcase, hcase, h.fresh (s.marketCount + 1) (by omega)]
          rfl
        · rw [if_neg hcase]
          simp [acceptedOf]
    | betYes now caller id0 amount =>
      have hacc : acceptedOf s m (.betYes now caller id0 amount)
          = if id0 = m then amount else 0 := by
        simp [acceptedOf, happ, Except.isOk, Except.toBool]
      simp only [applyOp] at happ
      obtain ⟨hdl, hres, _, _, _, hs2⟩ := placeBet_ok happ
      rw [if_pos rfl] at hs2
      subst hs2
      rw [hacc]
      dsimp only
      rw [Function.update_apply]
      by_cases hcase : m = id0
      · rw [if_pos hcase, if_pos (by omega), hcase]
        show (s.markets id0).yesPool + amount + (s.markets id0).noPool = _
        omega
      · rw [if_neg hcase, if_neg (by omega)]
        omega
    | betNo now caller id0 amount =>
      have hacc : acceptedOf s m (.betNo now caller id0 amount)
          = if id0 = m then amount else 0 := by
        simp [acceptedOf, happ, Except.isOk, Except.toBool]
      simp only [applyOp] at happ
      obtain ⟨hdl, hres, _, _, _, hs2⟩ := placeBet_ok happ
      rw [if_neg (by simp)] at hs2
      subst hs2
      rw [hacc]
      dsimp only
      rw [Function.update_apply]
      by_cases hcase : m = id0
      · rw [if_pos hcase, if_pos (by omega), hcase]
        show (s.markets id0).yesPool + ((s.markets id0).noPool + amount) = _
        omega
      · rw [if_neg hcase, if_neg (by omega)]
        omega
    | resolveMarket now caller id0 b =>
      simp only [applyOp] at happ
      obtain ⟨_, hdl, hres, _, hs2⟩ := resolveMarket_ok happ
      subst hs2
      dsimp only
      rw [Function.update_apply]
      by_cases hcase : m = id0
      · rw [if_pos hcase, hcase]
        rfl
      · rw [if_neg hcase]
        rfl
    | claim caller id0 =>
      simp only [applyOp] at happ
      cases hc : claim s caller id0 with
      | error e => rw [hc] at happ; cases happ
      | ok r =>
        rw [hc] at happ
        simp only [Except.map] at happ
        cases happ
        obtain ⟨_, _, _, _, _, hstate⟩ := claim_ok hc
        rw [hstate]
        rfl
    | withdrawFees caller =>
      simp only [applyOp] at happ
      cases hc : withdrawFees s caller with
      | error e => rw [hc] at happ; cases happ
      | ok r =>
        rw [hc] at happ
        simp only [Except.map] at happ
        cases happ
        obtain ⟨_, _, _, hstate⟩ := withdrawFees_ok hc
        rw [hstate]
        rfl
    | setFee caller bps =>
      simp only [applyOp] at happ
      obtain ⟨_, _, hstate⟩ := setFee_ok happ
      subst hstate
      rfl
    | setBetLimits caller mn mx =>
      simp only [applyOp] at happ
      obtain ⟨_, hstate⟩ := setBetLimits_ok happ
      subst hstate
      rfl

/-- Trace-level pool accounting: the pool sum grows by exactly the
accepted bet total. -/
theorem pools_exec (s : EngineState) (ops : List Op) (m : Nat) (h : Inv s) :
    ((execOps s ops).markets m).yesPool + ((execOps s ops).markets m).noPool
      = (s.markets m).yesPool + (s.markets m).noPool + betsAccepted s m ops := by
  induction ops generalizing s with
  | nil => rfl
  | cons op rest ih =>
    have h1 := (step_sound s op h).1
    have hrest := ih (runOp s op).1 h1
    have hstep := pools_step s op m h
    simp only [execOps, betsAccepted]
    rw [hrest, hstep]
    omega

/-- Executing any trace preserves the invariant and the frame facts. -/
theorem exec_sound (s : EngineState) (ops : List Op) (h : Inv s) :
    Inv (execOps s ops) ∧ Preserves s (execOps s ops) := by
  induction ops generalizing s with
  | nil => exact ⟨h, preserves_refl s⟩
  | cons op rest ih =>
    obtain ⟨h1, p1⟩ := step_sound s op h
    obtain ⟨h2, p2⟩ := ih (runOp s op).1 h1
    exact ⟨h2, preserves_trans p1 p2⟩

/-! ### Claim theorems -/

/-- Claim C3: for every market id and account, `calculatePayout` returns 0
when the market is unresolved, and otherwise — with total the sum of both
pools and winningPool the pool matching the fixed outcome — returns 0 when
the account's winning-side stake or the winning pool is 0, and
`floor(stake * total / winningPool)` otherwise.  Stated as equality with
the formula transcribed from the spec. -/
theorem calculatePayout_matches_spec (s : EngineState) (marketId user : Nat) :
    calculatePayout s marketId user = calculatePayoutSpec s marketId user := by
  unfold calculatePayout calculatePayoutSpec
  dsimp only
  by_cases hres : (s.markets marketId).resolved = false
  · rw [if_pos hres, if_pos hres]
  · rw [if_neg hres, if_neg hres]
    by_cases hout : (s.markets marketId).outcomeYes = true
    · simp only [if_pos hout]
      by_cases htot : (s.markets marketId).yesPool + (s.markets marketId).noPool = 0
      · rw [if_pos htot, if_pos (Or.inr (by omega))]
      · rw [if_neg htot]
    · simp only [if_neg hout]
      by_cases htot : (s.markets marketId).yesPool + (s.markets marketId).noPool = 0
      · rw [if_pos htot, if_pos (Or.inr (by omega))]
      · rw [if_neg htot]

theorem div_add_div_le (a b c : Nat) : a / c + b / c ≤ (a + b) / c := by
  rcases Nat.eq_zero_or_pos c with hc | hc
  · subst hc
    simp
  · rw [Nat.le_div_iff_mul_le hc]
    calc (a / c + b / c) * c = a / c * c + b / c * c := by ring
    _ ≤ a + b := Nat.add_le_add (Nat.div_mul_le_self a c) (Nat.div_mul_le_self b c)

theorem sum_div_le (T W : Nat) (l : List Nat) :
    (l.map fun st => st * T / W).sum ≤ l.sum * T / W := by
  induction l with
  | nil => simp
  | cons a rest ih =>
    simp only [List.map_cons, List.sum_cons]
    calc a * T / W + (rest.map fun st => st * T / W).sum
        ≤ a * T / W + rest.sum * T / W := Nat.add_le_add_left ih _
    _ ≤ (a * T + rest.sum * T) / W := div_add_div_le _ _ _
    _ = (a + rest.sum) * T / W := by rw [Nat.add_mul]

/-- Claim C4: in a resolved market whose winning pool is positive, the
gross payouts `calculatePayout` computes for any collection of accounts
whose winning-side stakes add up to the winning pool sum to at most the
total pool — the escrow can never be over-distributed, and any shortfall
is non-negative dust. -/
theorem payout_sum_le_total (s : EngineState) (id : Nat) (users : List Nat)
    (hres : (s.markets id).resolved = true)
    (hW : 0 < (if (s.markets id).outcomeYes then (s.markets id).yesPool
               else (s.markets id).noPool))
    (hsum : (users.map fun u => if (s.markets id).outcomeYes
                then s.yesStakes id u else s.noStakes id u).sum
        = (if (s.markets id).outcomeYes then (s.markets id).yesPool
           else (s.markets id).noPool)) :
    (users.map fun u => calculatePayout s id u).sum
      ≤ (s.markets id).yesPool + (s.markets id).noPool := by
  by_cases hout : (s.markets id).outcomeYes = true
  · rw [if_pos hout] at hW
    simp only [if_pos hout] at hsum
    have hpt : ∀ u, calculatePayout s id u
        ≤ s.yesStakes id u * ((s.markets id).yesPool + (s.markets id).noPool)
            / (s.markets id).yesPool := by
      intro u
      unfold calculatePayout
      dsimp only
      rw [if_neg (by simp [hres]), if_neg (by omega), if_pos hout]
      by_cases hz : s.yesStakes id u = 0 ∨ (s.markets id).yesPool = 0
      · rw [if_pos hz]
        exact Nat.zero_le _
      · rw [if_neg hz]
    have hb := sum_div_le ((s.markets id).yesPool + (s.markets id).noPool)
      (s.markets id).yesPool (users.map fun u => s.yesStakes id u)
    rw [List.map_map, hsum, Nat.mul_div_cancel_left _ hW] at hb
    exact le_trans (List.sum_le_sum fun u _ => hpt u) hb
  · rw [if_neg hout] at hW
    simp only [if_neg hout] at hsum
    have hpt : ∀ u, calculatePayout s id u
        ≤ s.noStakes id u * ((s.markets id).yesPool + (s.markets id).noPool)
            / (s.markets id).noPool := by
      intro u
      unfold calculatePayout
      dsimp only
      rw [if_neg (by simp [hres]), if_neg (by omega), if_neg hout]
      by_cases hz : s.noStakes id u = 0 ∨ (s.markets id).noPool = 0
      · rw [if_pos hz]
        exact Nat.zero_le _
      · rw [if_neg hz]
    have hb := sum_div_le ((s.markets id).yesPool + (s.markets id).noPool)
      (s.markets id).noPool (users.map fun u => s.noStakes id u)
    rw [List.map_map, hsum, Nat.mul_div_cancel_left _ hW] at hb
    exact le_trans (List.sum_le_sum fun u _ => hpt u) hb

/-- Claim C4 witness: on the concrete resolved market (yesPool 700 from
stakes 100 and 600, noPool 300) the payouts 142 + 857 stay below the
1000-token pool. -/
theorem payout_sum_le_total_witness :
    (exResolved.markets 1).resolved = true ∧
    ([42, 43].map fun u => calculatePayout exResolved 1 u).sum
      ≤ (exResolved.markets 1).yesPool + (exResolved.markets 1).noPool :=
  ⟨by decide, payout_sum_le_total exResolved 1 [42, 43] (by decide)
    (by decide) (by decide)⟩

/-- Claim C6: `placeBet` succeeds only on an existing, unresolved market
strictly before its deadline with `minBet ≤ amount` and — unless the
configured maxBet is 0, which disables the bound — `amount ≤ maxBet`;
once the deadline has passed it fails `MarketEnded` even while
unresolved; and on success the chosen side's pool and the caller's
per-side stake each grow by exactly `amount`. -/
theorem placeBet_spec (s : EngineState) (now caller id amount : Nat)
    (isYes : Bool) :
    (∀ s2, placeBet s now caller id amount isYes = .ok s2 →
       (s.markets id).deadline ≠ 0 ∧ (s.markets id).resolved = false ∧
       now < (s.markets id).deadline ∧ s.minBetSize ≤ amount ∧
       (s.maxBetSize = 0 ∨ amount ≤ s.maxBetSize) ∧
       (isYes = true →
         (s2.markets id).yesPool = (s.markets id).yesPool + amount ∧
         s2.yesStakes id caller = s.yesStakes id caller + amount) ∧
       (isYes = false →
         (s2.markets id).noPool = (s.markets id).noPool + amount ∧
         s2.noStakes id caller = s.noStakes id caller + amount)) ∧
    ((s.markets id).deadline ≠ 0 → (s.markets id).resolved = false →
       (s.markets id).deadline ≤ now →
       placeBet s now caller id amount isYes = .error .MarketEnded) := by
  constructor
  · intro s2 h
    obtain ⟨h1, h2, h3, h4, h5, hs2⟩ := placeBet_ok h
    refine ⟨h1, h2, h3, h4, h5, ?_, ?_⟩
    · intro hy
      subst hy
      rw [if_pos rfl] at hs2
      subst hs2
      constructor
      · dsimp only
        rw [Function.update_apply, if_pos rfl]
      · dsimp only [upd2]
        rw [if_pos ⟨rfl, rfl⟩]
    · intro hn
      subst hn
      rw [if_neg (by simp)] at hs2
      subst hs2
      constructor
      · dsimp only
        rw [Function.update_apply, if_pos rfl]
      · dsimp only [upd2]
        rw [if_pos ⟨rfl, rfl⟩]
  · exact placeBet_ended_err

/-- Claim C6 witness: a successful 50-token YES bet on the open market
grows the pool and stake to 50, and the same bet at time 200 (past the
deadline 100) fails `MarketEnded`. -/
theorem placeBet_spec_witness :
    ((exPostBet.markets 1).yesPool = (exOpen.markets 1).yesPool + 50 ∧
     exPostBet.yesStakes 1 42 = exOpen.yesStakes 1 42 + 50) ∧
    placeBet exOpen 200 42 1 50 true = Except.error Err.MarketEnded := by
  constructor
  · exact ((placeBet_spec exOpen 5 42 1 50 true).1 exPostBet rfl).2.2.2.2.2.1 rfl
  · exact (placeBet_spec exOpen 200 42 1 50 true).2 (by decide) (by decide)
      (by decide)

/-- Claim C10: in a resolved market whose winning-side pool is zero while
tokens sit in the total pool, every account's payout is 0, so every claim
fails `NoWinnings` and the escrowed pool stays custodied with no claim
path. -/
theorem losers_stranded (s : EngineState) (id : Nat)
    (hres : (s.markets id).resolved = true)
    (hT : 0 < (s.markets id).yesPool + (s.markets id).noPool)
    (hW : (if (s.markets id).outcomeYes then (s.markets id).yesPool
           else (s.markets id).noPool) = 0) :
    (∀ user, calculatePayout s id user = 0) ∧
    (∀ user, (s.markets id).deadline ≠ 0 → s.claimed id user = false →
       claim s user id = .error .NoWinnings) := by
  have hpay : ∀ user, calculatePayout s id user = 0 := by
    intro user
    unfold calculatePayout
    dsimp only
    rw [if_neg (by simp [hres]), if_neg (by omega)]
    by_cases hout : (s.markets id).outcomeYes = true
    · rw [if_pos hout] at hW
      rw [if_pos hout, if_pos (Or.inr hW)]
    · rw [if_neg hout] at hW
      rw [if_neg hout, if_pos (Or.inr hW)]
  refine ⟨hpay, fun user h1 h2 => claim_noWinnings_err h1 hres h2 (hpay user)⟩

/-- Claim C10 witness: market 1 of `exStranded` (only NO stakes, resolved
YES) pays 0 to the NO staker 42, whose claim fails `NoWinnings`. -/
theorem losers_stranded_witness :
    calculatePayout exStranded 1 42 = 0 ∧
    claim exStranded 42 1 = Except.error Err.NoWinnings := by
  have h := losers_stranded exStranded 1 (by decide) (by decide) (by decide)
  exact ⟨h.1 42, h.2 42 (by decide) (by decide)⟩

/-- Claim C2: a successful claim pays the caller exactly the gross payout
minus the fee `floor(payout * platformFeeBps / 10000)` and grows the
accumulated fees by exactly that fee; concretely, with yesPool 700,
noPool 300, outcome YES, a 100-token YES stake and a 200 bps fee, the
payout is 142, the fee is 2 and the user receives 140. -/
theorem claim_fee_math (s : EngineState) (caller id : Nat) :
    (∀ r, claim s caller id = .ok r →
       0 < calculatePayout s id caller ∧
       r.1.accumulatedFees = s.accumulatedFees +
         calculatePayout s id caller * s.platformFeeBps / BPS_DENOMINATOR ∧
       r.2 = calculatePayout s id caller -
         calculatePayout s id caller * s.platformFeeBps / BPS_DENOMINATOR) ∧
    (calculatePayout exResolved 1 42 = 142 ∧ exResolved.platformFeeBps = 200 ∧
     ∃ s2, claim exResolved 42 1 = .ok (s2, 140) ∧
        s2.accumulatedFees = exResolved.accumulatedFees + 2) := by
  constructor
  · intro r h
    obtain ⟨_, _, _, hp, hv, hs⟩ := claim_ok h
    exact ⟨by omega, by rw [hs], hv⟩
  · exact ⟨by decide, by decide, ⟨_, rfl, rfl⟩⟩

/-- Claim C2 witness: instantiating the general fee equation at the
concrete example state confirms the 142/2/140 split. -/
theorem claim_fee_math_witness :
    exPostClaim.1.accumulatedFees = exResolved.accumulatedFees +
      calculatePayout exResolved 1 42 * exResolved.platformFeeBps
        / BPS_DENOMINATOR ∧
    exPostClaim.2 = calculatePayout exResolved 1 42 -
      calculatePayout exResolved 1 42 * exResolved.platformFeeBps
        / BPS_DENOMINATOR :=
  ((claim_fee_math exResolved 42 1).1 exPostClaim rfl).2

theorem resolveMarket_unauth_err {s : EngineState} {now caller id : Nat}
    {b : Bool} (h : caller ≠ s.owner) :
    resolveMarket s now caller id b = .error .Unauthorized := by
  unfold resolveMarket
  rw [if_pos h]

/-- A successful resolution leaves an invariant state whose market slot
has the deadline intact, `resolved` set, and the outcome it was given. -/
theorem post_resolve_facts {s : EngineState} {now caller id : Nat} {b : Bool}
    {s2 : EngineState} (hinv : Inv s)
    (h : resolveMarket s now caller id b = .ok s2) :
    Inv s2 ∧ (s2.markets id).deadline = (s.markets id).deadline ∧
    (s2.markets id).resolved = true ∧ (s2.markets id).outcomeYes = b ∧
    s2.owner = s.owner := by
  have hrun : (runOp s (Op.resolveMarket now caller id b)).1 = s2 := by
    unfold runOp
    rw [show applyOp s (Op.resolveMarket now caller id b) = .ok s2 from h]
  have hinv2 : Inv s2 :=
    hrun ▸ (step_sound s (Op.resolveMarket now caller id b) hinv).1
  obtain ⟨hown, hdl, hres, hnow, hs2⟩ := resolveMarket_ok h
  subst hs2
  refine ⟨hinv2, ?_, ?_, ?_, rfl⟩
  all_goals
    dsimp only
    rw [Function.update_apply, if_pos rfl]

/-- Claim C1: `claim` succeeds only on a resolved market not yet claimed
by the caller, fails `NoWinnings` when the computed payout is zero, and
succeeds at most once per (market, account): after one success, every
later claim by that account on that market — across any further
transactions — fails `AlreadyClaimed`. -/
theorem claim_at_most_once (s : EngineState) (hinv : Inv s)
    (caller id : Nat) :
    (∀ r, claim s caller id = .ok r →
       (s.markets id).resolved = true ∧ s.claimed id caller = false) ∧
    ((s.markets id).deadline ≠ 0 → (s.markets id).resolved = true →
     s.claimed id caller = false → calculatePayout s id caller = 0 →
     claim s caller id = .error .NoWinnings) ∧
    (∀ r, claim s caller id = .ok r → ∀ ops,
       claim (execOps r.1 ops) caller id = .error .AlreadyClaimed) := by
  refine ⟨?_, ?_, ?_⟩
  · intro r h
    obtain ⟨_, h2, h3, _⟩ := claim_ok h
    exact ⟨h2, h3⟩
  · exact fun h1 h2 h3 h4 => claim_noWinnings_err h1 h2 h3 h4
  · intro r h ops
    obtain ⟨hdl, hres, _, _, _, hs⟩ := claim_ok h
    have hm : r.1.markets = s.markets := by rw [hs]
    have hcnt : r.1.marketCount = s.marketCount := by rw [hs]
    have hcl : r.1.claimed id caller = true := by
      rw [hs]
      dsimp only [upd2]
      rw [if_pos ⟨rfl, rfl⟩]
    have hinv1 : Inv r.1 := by
      constructor
      · intro j hj
        rw [hcnt] at hj
        rw [hm]
        exact hinv.fresh j hj
      · intro j hj
        rw [hm] at hj ⊢
        exact hinv.dead j hj
    obtain ⟨_, hpres⟩ := exec_sound r.1 ops hinv1
    have hdl1 : (r.1.markets id).deadline ≠ 0 := by
      rw [hm]
      exact hdl
    obtain ⟨hdl2, hfr⟩ := hpres.frozen id hdl1
    have hres1 : (r.1.markets id).resolved = true := by
      rw [hm]
      exact hres
    have hmkt := hfr hres1
    refine claim_already_err ?_ ?_ ?_
    · rw [hdl2]
      exact hdl1
    · rw [hmkt]
      exact hres1
    · exact hpres.claimedMono id caller hcl

/-- Claim C1 witness: user 42 claims once on the example market; a retry
after an unrelated fee withdrawal fails `AlreadyClaimed`, and user 44
(holding no stake) fails `NoWinnings`. -/
theorem claim_at_most_once_witness :
    claim (execOps exPostClaim.1 [Op.withdrawFees 7]) 42 1
      = Except.error Err.AlreadyClaimed ∧
    claim exResolved 44 1 = Except.error Err.NoWinnings := by
  have hinv : Inv exResolved :=
    (exec_sound (initState 7 1 1000)
      (exLockedTrace ++ [Op.resolveMarket 10 7 1 true])
      (inv_init 7 1 1000)).1
  constructor
  · exact (claim_at_most_once exResolved hinv 42 1).2.2 exPostClaim rfl
      [Op.withdrawFees 7]
  · exact (claim_at_most_once exResolved hinv 44 1).2.1 (by decide)
      (by decide) (by decide) (by decide)

/-- Claim C5: `resolveMarket` is owner-only, succeeds only on an
existing unresolved market at or past its deadline, fails
`MarketNotEnded` strictly before the deadline, and succeeds exactly
once: afterwards `resolved` stays true, the outcome stays the value
passed, and every repeated owner call fails `MarketAlreadyResolved`. -/
theorem resolveMarket_once (s : EngineState) (hinv : Inv s)
    (now caller id : Nat) (b : Bool) :
    (caller ≠ s.owner →
       resolveMarket s now caller id b = .error .Unauthorized) ∧
    (∀ s2, resolveMarket s now caller id b = .ok s2 →
       caller = s.owner ∧ (s.markets id).deadline ≠ 0 ∧
       (s.markets id).resolved = false ∧ (s.markets id).deadline ≤ now) ∧
    (caller = s.owner → (s.markets id).deadline ≠ 0 →
     (s.markets id).resolved = false → now < (s.markets id).deadline →
     resolveMarket s now caller id b = .error .MarketNotEnded) ∧
    (∀ s2, resolveMarket s now caller id b = .ok s2 → ∀ ops,
       ((execOps s2 ops).markets id).resolved = true ∧
       ((execOps s2 ops).markets id).outcomeYes = b ∧
       (∀ now2 b2,
          resolveMarket (execOps s2 ops) now2 (execOps s2 ops).owner id b2
            = .error .MarketAlreadyResolved)) := by
  refine ⟨resolveMarket_unauth_err, ?_, ?_, ?_⟩
  · intro s2 h
    obtain ⟨h1, h2, h3, h4, _⟩ := resolveMarket_ok h
    exact ⟨h1, h2, h3, h4⟩
  · exact fun h0 h1 h2 h3 => resolveMarket_notEnded_err h0 h1 h2 h3
  · intro s2 h ops
    obtain ⟨_, hdl, _, _, _⟩ := resolveMarket_ok h
    obtain ⟨hinv2, hdl2eq, hres2, hout2, _⟩ := post_resolve_facts hinv h
    have hdl2 : (s2.markets id).deadline ≠ 0 := by
      rw [hdl2eq]
      exact hdl
    obtain ⟨_, hpres⟩ := exec_sound s2 ops hinv2
    obtain ⟨hdl3, hfr⟩ := hpres.frozen id hdl2
    have hmkt := hfr hres2
    refine ⟨by rw [hmkt]; exact hres2, by rw [hmkt]; exact hout2, ?_⟩
    intro now2 b2
    refine resolveMarket_already_err rfl ?_ ?_
    · rw [hdl3, hdl2eq]
      exact hdl
    · rw [hmkt]
      exact hres2

/-- Claim C5 witness: on the locked example market, a non-owner call
fails `Unauthorized`, a pre-deadline owner call fails `MarketNotEnded`,
and after the owner resolves to YES the outcome survives a later
transaction and a repeat call fails `MarketAlreadyResolved`. -/
theorem resolveMarket_once_witness :
    resolveMarket exLocked 10 8 1 true = Except.error Err.Unauthorized ∧
    resolveMarket exLocked 5 7 1 true = Except.error Err.MarketNotEnded ∧
    ((execOps exPostResolve [Op.setFee 7 100]).markets 1).resolved = true ∧
    ((execOps exPostResolve [Op.setFee 7 100]).markets 1).outcomeYes = true ∧
    resolveMarket (execOps exPostResolve [Op.setFee 7 100]) 20
      (execOps exPostResolve [Op.setFee 7 100]).owner 1 false
      = Except.error Err.MarketAlreadyResolved := by
  have hinv : Inv exLocked :=
    (exec_sound (initState 7 1 1000) exLockedTrace (inv_init 7 1 1000)).1
  refine ⟨(resolveMarket_once exLocked hinv 10 8 1 true).1 (by decide),
    (resolveMarket_once exLocked hinv 5 7 1 true).2.2.1 (by decide)
      (by decide) (by decide) (by decide), ?_⟩
  have h4 := (resolveMarket_once exLocked hinv 10 7 1 true).2.2.2
    exPostResolve rfl [Op.setFee 7 100]
  exact ⟨h4.1, h4.2.1, h4.2.2 20 false⟩

/-- Claim C7: every engine operation is all-or-nothing — a transaction
that fails with any error leaves the state exactly unchanged; in
particular `createMarket` with a past deadline fails
`DeadlineMustBeFuture` with the market counter unchanged. -/
theorem ops_atomic :
    (∀ (s : EngineState) (op : Op) (e : Err),
       (runOp s op).2 = some e → (runOp s op).1 = s) ∧
    (∀ (s : EngineState) (now : Nat) (q : String) (dl : Nat), dl ≤ now →
       runOp s (.createMarket now q dl) = (s, some .DeadlineMustBeFuture) ∧
       (runOp s (.createMarket now q dl)).1.marketCount = s.marketCount) := by
  constructor
  · intro s op e h
    cases happ : applyOp s op with
    | error e2 => simp only [runOp, happ]
    | ok s2 =>
      rw [runOp] at h
      simp only [happ] at h
      exact absurd h (by simp)
  · intro s now q dl h
    have herr : applyOp s (.createMarket now q dl)
        = .error .DeadlineMustBeFuture := by
      simp only [applyOp, @createMarket_past_err s now dl q h, Except.map]
    constructor
    · rw [runOp, herr]
    · rw [runOp, herr]

/-- Claim C7 witness: an unauthorized `setFee` leaves the initial state
unchanged, and `createMarket` at time 5 with deadline 4 fails
`DeadlineMustBeFuture` with the counter untouched. -/
theorem ops_atomic_witness :
    (runOp (initState 7 1 1000) (Op.setFee 8 5)).1 = initState 7 1 1000 ∧
    runOp (initState 7 1 1000) (Op.createMarket 5 "q" 4)
      = (initState 7 1 1000, some Err.DeadlineMustBeFuture) := by
  constructor
  · exact ops_atomic.1 (initState 7 1 1000) (Op.setFee 8 5)
      Err.Unauthorized rfl
  · exact (ops_atomic.2 (initState 7 1 1000) 5 "q" 4 (by decide)).1

/-- Claim C8: from the constructed state, along every trace, an
unresolved market's pool sum equals the total amount accepted by
`placeBet` for it, and a further transaction never decreases either
pool. -/
theorem pool_conservation (owner mn mx : Nat) (ops : List Op) (m : Nat) :
    (((execOps (initState owner mn mx) ops).markets m).resolved = false →
       ((execOps (initState owner mn mx) ops).markets m).yesPool +
         ((execOps (initState owner mn mx) ops).markets m).noPool
       = betsAccepted (initState owner mn mx) m ops) ∧
    (∀ op,
       ((execOps (initState owner mn mx) ops).markets m).resolved = false →
       ((execOps (initState owner mn mx) ops).markets m).yesPool ≤
         ((runOp (execOps (initState owner mn mx) ops) op).1.markets m).yesPool ∧
       ((execOps (initState owner mn mx) ops).markets m).noPool ≤
         ((runOp (execOps (initState owner mn mx) ops) op).1.markets m).noPool) := by
  have hinv := inv_init owner mn mx
  constructor
  · intro _
    rw [pools_exec (initState owner mn mx) ops m hinv]
    show 0 + 0 + betsAccepted (initState owner mn mx) m ops = _
    omega
  · intro op _
    exact (step_sound (execOps (initState owner mn mx) ops) op
      (exec_sound (initState owner mn mx) ops hinv).1).2.pools m

/-- Claim C8 witness: the example trace (bets 100, 600, 300 on market 1)
yields pools summing to its accepted total, and one more bet never
shrinks the yes pool. -/
theorem pool_conservation_witness :
    ((exLocked.markets 1).yesPool + (exLocked.markets 1).noPool
       = betsAccepted (initState 7 1 1000) 1 exLockedTrace) ∧
    (exLocked.markets 1).yesPool ≤
      ((runOp exLocked (Op.betYes 3 42 1 5)).1.markets 1).yesPool := by
  constructor
  · exact (pool_conservation 7 1 1000 exLockedTrace 1).1 (by decide)
  · exact ((pool_conservation 7 1 1000 exLockedTrace 1).2
      (Op.betYes 3 42 1 5) (by decide)).1

/-- Claim C9 counterexample: the source `getMarket` performs no existence
check — on the constructed state, where market 1 does not exist, it
returns the zero snapshot successfully instead of failing with the
not-found error the spec wording (`getMarketSpec`) prescribes. -/
theorem getMarket_no_notfound_cex :
    marketExists (initState 7 1 1000) 1 = false ∧
    getMarket (initState 7 1 1000) 1 = ("", 0, false, false, 0, 0) ∧
    getMarketSpec (initState 7 1 1000) 1
      = Except.error Err.MarketDoesNotExist :=
  ⟨rfl, rfl, rfl⟩

/-- Claim C9 (amended): `getMarket` never fails — for every id it returns
the stored snapshot tuple (question, deadline, resolved, outcome,
yesPool, noPool), and on a reachable state a nonexistent id yields the
zero/default snapshot rather than a not-found failure. -/
theorem getMarket_total_snapshot (s : EngineState) (hinv : Inv s)
    (id : Nat) :
    getMarket s id = ((s.markets id).question, (s.markets id).deadline,
      (s.markets id).resolved, (s.markets id).outcomeYes,
      (s.markets id).yesPool, (s.markets id).noPool) ∧
    (marketExists s id = false →
       getMarket s id = ("", 0, false, false, 0, 0)) := by
  refine ⟨rfl, ?_⟩
  intro h
  unfold marketExists at h
  have hdl : (s.markets id).deadline = 0 := not_not.mp (of_decide_eq_false h)
  unfold getMarket
  rw [hinv.dead id hdl]
  rfl

/-- Claim C9 witness: on the freshly constructed engine, reading
nonexistent market 1 yields the zero snapshot. -/
theorem getMarket_total_snapshot_witness :
    getMarket (initState 7 1 1000) 1 = ("", 0, false, false, 0, 0) :=
  (getMarket_total_snapshot (initState 7 1 1000) (inv_init 7 1 1000) 1).2 rfl

end PredMkt
